import Mathlib

/-!
Verification of banner-scanner, over its source file `main.go`.

A Go `string` that holds text (a flag, a target line, a host, a probe) is
modelled as a `List Char`; the separators and digits the program looks for are
all ASCII.  The bytes read from a connection, and the banner built from them,
are arbitrary bytes and are modelled as a `List Nat`, one number below 256 for
each byte.  A Go `int` is a mathematical `Int`; the only place where the 64-bit
width matters is the range check of `strconv.Atoi`, which is modelled
explicitly.  Code that can panic returns `Option`, with `none` standing for the
panic.
-/

namespace BannerScanner

/-! ## Library functions used by the program -/

/-- Go `strings.HasPrefix(s, prefix)`. -/
def strings.HasPrefix (s pre : List Char) : Bool :=
  pre.isPrefixOf s

/-- Worker of `strings.Split` for a non-empty separator.  `skip` is the number
of characters of a separator occurrence that are still to be consumed; the head
of the result is the part under construction. -/
def strings.splitFrom (sep : List Char) : List Char → Nat → List (List Char)
  | [], _ => [[]]
  | _ :: rest, skip + 1 => strings.splitFrom sep rest skip
  | c :: rest, 0 =>
    if sep.isPrefixOf (c :: rest) then
      [] :: strings.splitFrom sep rest (sep.length - 1)
    else
      match strings.splitFrom sep rest 0 with
      | p :: ps => (c :: p) :: ps
      | [] => [[c]]

/-- Go `strings.Split(s, sep)`: the parts of `s` between the successive
non-overlapping occurrences of `sep`, found left to right.  With an empty
separator the string is exploded into its characters. -/
def strings.Split (s sep : List Char) : List (List Char) :=
  if sep = [] then s.map (fun c => [c]) else strings.splitFrom sep s 0

/-- Go `unicode.White_Space`, the characters for which `unicode.IsSpace` holds,
as code points. -/
def unicode.White_Space : List Nat :=
  [0x09, 0x0a, 0x0b, 0x0c, 0x0d, 0x20, 0x85, 0xa0, 0x1680, 0x2000, 0x2001, 0x2002, 0x2003,
   0x2004, 0x2005, 0x2006, 0x2007, 0x2008, 0x2009, 0x200a, 0x2028, 0x2029, 0x202f, 0x205f,
   0x3000]

/-- UTF-8 encoding of one valid code point, as Go `utf8.AppendRune` writes it. -/
def utf8.encodeRune (r : Nat) : List Nat :=
  if r < 0x80 then [r]
  else if r < 0x800 then [0xc0 + r / 64, 0x80 + r % 64]
  else if r < 0x10000 then [0xe0 + r / 4096, 0x80 + r / 64 % 64, 0x80 + r % 64]
  else [0xf0 + r / 262144, 0x80 + r / 4096 % 64, 0x80 + r / 64 % 64, 0x80 + r % 64]

/-- The bytes of a text, its UTF-8 encoding. -/
def utf8.encode (s : List Char) : List Nat :=
  s.flatMap (fun c => utf8.encodeRune c.toNat)

/-- The byte sequences that decode to a white-space character. -/
def unicode.spaceEncodings : List (List Nat) :=
  unicode.White_Space.map utf8.encodeRune

/-- Removes from the front of `bs` one entry of `table` after another, as long
as `bs` begins with one; the first argument bounds the number of removals. -/
def strings.stripFront (table : List (List Nat)) : Nat → List Nat → List Nat
  | 0, bs => bs
  | n + 1, bs =>
    match table.find? (fun e => e.isPrefixOf bs) with
    | none => bs
    | some e => strings.stripFront table n (bs.drop e.length)

/-- Go `strings.TrimLeftFunc(s, unicode.IsSpace)` on bytes: decoding forward,
a white-space character is removed as long as one is decoded; a byte that
starts no valid encoding decodes to U+FFFD, which is no white space. -/
def strings.TrimLeftSpace (s : List Nat) : List Nat :=
  strings.stripFront unicode.spaceEncodings s.length s

/-- Go `strings.TrimRightFunc(s, unicode.IsSpace)` on bytes: the same from the
end, decoding backward. -/
def strings.TrimRightSpace (s : List Nat) : List Nat :=
  (strings.stripFront (unicode.spaceEncodings.map List.reverse) s.length s.reverse).reverse

/-- Go `strings.TrimSpace(s)` on the bytes of `s`: `s` without its leading and
trailing white space, as Unicode defines it.  A white-space character has one
encoding, and Go decodes it (forward with `DecodeRune`, backward with
`DecodeLastRune`) exactly where that encoding stands, so the characters Go
removes are the entries of `unicode.spaceEncodings` at either end. -/
def strings.TrimSpace (s : List Nat) : List Nat :=
  strings.TrimRightSpace (strings.TrimLeftSpace s)

/-- Value of a decimal digit, `none` for any other character. -/
def strconv.digitVal (c : Char) : Option Nat :=
  if '0'.toNat ≤ c.toNat ∧ c.toNat ≤ '9'.toNat then some (c.toNat - '0'.toNat) else none

/-- Digit loop of `strconv.Atoi`: `n = n*10 + digit`, a syntax error (`none`)
at the first character that is not a decimal digit. -/
def strconv.parseDigits : List Char → Nat → Option Nat
  | [], n => some n
  | c :: cs, n =>
    match strconv.digitVal c with
    | none => none
    | some d => strconv.parseDigits cs (n * 10 + d)

/-- Go `strconv.Atoi(s)` on a platform with 64-bit `int`: an optional sign
followed by at least one decimal digit, and nothing else; `none` stands for the
non-nil error (`ErrSyntax`, or `ErrRange` when the value does not fit). -/
def strconv.Atoi (s : List Char) : Option Int :=
  match s with
  | [] => none
  | c :: cs =>
    let neg := decide (c = '-')
    let ds := if c = '-' ∨ c = '+' then cs else s
    if ds = [] then none
    else
      match strconv.parseDigits ds 0 with
      | none => none
      | some n =>
        if neg then (if n ≤ 2 ^ 63 then some (-(n : Int)) else none)
        else (if n < 2 ^ 63 then some (n : Int) else none)

/-- Go `strconv.Itoa`, the rendering of `%d`. -/
def strconv.Itoa (i : Int) : List Char :=
  if i < 0 then '-' :: Nat.toDigits 10 i.natAbs else Nat.toDigits 10 i.toNat

/-! ## `parsePortRange` and `sanitizeTarget` -/

/-- The loop `for i := start; i <= end; i++ { ports = append(ports, i) }`.
The first argument bounds the number of iterations still allowed. -/
def portsLoop (stop : Int) : Nat → Int → List Int → List Int
  | 0, _, ports => ports
  | fuel + 1, i, ports =>
    if i ≤ stop then portsLoop stop fuel (i + 1) (ports ++ [i]) else ports

/-- Model of `parsePortRange` (main.go, lines 28-44).  The error case carries
the message and no port list.  The loop is given `end-start+1` iterations,
the capacity the source reserves for `ports`. -/
def parsePortRange (rangeStr : List Char) : Except String (List Int) :=
  let parts := strings.Split rangeStr ['-']
  if parts.length ≠ 2 then .error "invalid port range format"
  else
    let r1 := strconv.Atoi (parts.getD 0 [])
    let r2 := strconv.Atoi (parts.getD 1 [])
    match r1, r2 with
    | some start, some stop =>
      if start < 1 ∨ stop > 65535 ∨ start > stop then
        .error "invalid port range values"
      else .ok (portsLoop stop (stop - start + 1).toNat start [])
    | _, _ => .error "invalid port range values"

/-- Model of `sanitizeTarget` (main.go, lines 46-51).  `none` is the
index-out-of-range panic of `[1]` or `[0]`. -/
def sanitizeTarget (target : List Char) : Option (List Char) :=
  let target? :=
    if strings.HasPrefix target "http://".toList || strings.HasPrefix target "https://".toList then
      (strings.Split target "//".toList)[1]?
    else some target
  match target? with
  | none => none
  | some t => (strings.Split t "/".toList)[0]?

/-! ## The world a scan runs in -/

/-- What one `conn.Read(buf)` returns: the bytes `buf[:n]` and whether `err != nil`. -/
structure ReadResult where
  data : List Nat
  err : Bool
deriving DecidableEq, Repr

/-- Observable actions of the program, in the order they are performed. -/
inductive Event where
  | dial (addr : List Char) (timeout : Int) (ok : Bool)
  | setReadDeadline (d : Int)
  | write (data : List Char)
  | read (data : List Nat) (err : Bool)
  | sleep (d : Int)
  | adjust (success : Bool)
  | close
  | send (line : List Nat)
  | wgDone
deriving DecidableEq, Repr

/-- Package-level state and the environment of one run.  `rateFactor` is the
global of line 23, a `float64` held as the rational it denotes; `fl64` is the
rounding of an exact result to `float64`.  `rng` lists the raw values of the
random generator and `draws` counts those consumed; `net` gives the outcome of
each successive dial (`none`: the dial fails; `some reads`: it succeeds and the
connection answers its reads with `reads`, then with an error) and `dials`
counts the dials made.  `timeout` is the value of the flag `-t`. -/
structure World where
  rateFactor : ℚ
  fl64 : ℚ → ℚ
  rng : Nat → Nat
  draws : Nat
  net : Nat → Option (List ReadResult)
  dials : Nat
  timeout : Int
  trace : List Event

/-- Appends an event to the trace. -/
def World.log (w : World) (e : Event) : World :=
  { w with trace := w.trace ++ [e] }

/-- Go `time.Millisecond`, in nanoseconds. -/
def time.Millisecond : Int := 1000000

/-- Go `time.Second`, in nanoseconds. -/
def time.Second : Int := 1000000000

/-- The package variable `retries` (line 22); it is never assigned. -/
def retries : Nat := 3

/-- Go `rand.Intn(n)`: a value in `[0, n)`; panics (`none`) when `n <= 0`. -/
def rand.Intn (n : Int) (w : World) : Option (Int × World) :=
  if n ≤ 0 then none
  else some ((w.rng w.draws : Int) % n, { w with draws := w.draws + 1 })

/-- Go `time.Sleep(d)`. -/
def time.Sleep (d : Int) (w : World) : World :=
  w.log (.sleep d)

/-- Go `net.DialTimeout("tcp", addr, d)`. -/
def net.DialTimeout (addr : List Char) (d : Int) (w : World) :
    Option (List ReadResult) × World :=
  (w.net w.dials,
    { w with dials := w.dials + 1, trace := w.trace ++ [.dial addr d (w.net w.dials).isSome] })

/-- Model of `adjustRateLimit` (main.go, lines 106-117).  The constants `0.9`
and `1.1` are the `float64` values nearest to them, and the product is rounded. -/
def adjustRateLimit (success : Bool) (w : World) : World :=
  let rateFactor :=
    if success then w.fl64 (w.rateFactor * w.fl64 (9 / 10))
    else w.fl64 (w.rateFactor * w.fl64 (11 / 10))
  { w.log (.adjust success) with
    rateFactor :=
      if rateFactor < 1 / 2 then 1 / 2
      else if rateFactor > 2 then 2
      else rateFactor }

/-- Model of `randomDelay` (main.go, lines 119-121): a duration in nanoseconds. -/
def randomDelay (min max : Int) (w : World) : Option (Int × World) :=
  match rand.Intn (max - min) w with
  | none => none
  | some (r, w1) => some ((min + r) * time.Millisecond, w1)

/-- The statement `time.Sleep(randomDelay(min, max))`. -/
def sleepRandom (min max : Int) (w : World) : Option World :=
  match randomDelay min max w with
  | none => none
  | some (d, w1) => some (time.Sleep d w1)

/-- The probes of line 72. -/
def probes : List (List Char) :=
  ["\r\n".toList, "\r\n\r\n".toList, "\n\n".toList]

/-- The loop of lines 73-76: write each probe, then sleep. -/
def sendProbes : List (List Char) → World → Option World
  | [], w => some w
  | probe :: rest, w =>
    match sleepRandom 500 1000 (w.log (.write probe)) with
    | none => none
    | some w1 => sendProbes rest w1

/-- The loop of lines 79-86, with `k` iterations left: read, stop at an error
or at zero bytes, else append to the banner and sleep.  A connection whose
script is used up answers with an error. -/
def readLoop : Nat → List ReadResult → List Nat → World → Option (List Nat × World)
  | 0, _, banner, w => some (banner, w)
  | k + 1, conn, banner, w =>
    let r := conn.head?.getD ⟨[], true⟩
    let w1 := w.log (.read r.data r.err)
    if r.err ∨ r.data.length = 0 then some (banner, w1)
    else
      match sleepRandom 500 1000 w1 with
      | none => none
      | some w2 => readLoop k conn.tail (banner ++ r.data) w2

/-- The deferred `conn.Close()` calls, run when `grabBanner` returns. -/
def closeAll : Nat → World → World
  | 0, w => w
  | n + 1, w => closeAll n (w.log .close)

/-- Lines 66-70 of `grabBanner`: the write that primes FTP (port 21) or MySQL
(port 3306); nothing on any other port. -/
def seed (port : Int) (w : World) : World :=
  if port = 21 then w.log (.write "USER anonymous\r\n".toList)
  else if port = 3306 then w.log (.write "\x03SELECT VERSION();".toList)
  else w

/-- Lines 64-86 of `grabBanner`, the part of an attempt that follows a
successful dial: read deadline, protocol seed, probes, read loop.  Returns the
contents of the builder `banner` after the read loop. -/
def connected (port : Int) (conn : List ReadResult) (banner : List Nat) (w1 : World) :
    Option (List Nat × World) :=
  match sendProbes probes (seed port (w1.log (.setReadDeadline (5 * time.Second)))) with
  | none => none
  | some w4 => readLoop 5 conn banner w4

/-- The attempt loop of `grabBanner` (lines 57-94) with `n` attempts left;
`banner` is the builder declared before the loop and `opened` the number of
connections whose `Close` is deferred. -/
def grabLoop (addr : List Char) (port : Int) :
    Nat → List Nat → Nat → World → Option (List Nat × World)
  | 0, _, opened, w => some ([], closeAll opened w)
  | n + 1, banner, opened, w =>
    match net.DialTimeout addr (w.timeout * time.Second) w with
    | (none, w1) => grabLoop addr port n banner opened (adjustRateLimit false w1)
    | (some conn, w1) =>
      match connected port conn banner w1 with
      | none => none
      | some (banner1, w5) =>
        if banner1.length > 0 then
          some (strings.TrimSpace banner1, closeAll (opened + 1) (adjustRateLimit true w5))
        else
          match sleepRandom 1000 3000 w5 with
          | none => none
          | some w6 => grabLoop addr port n banner1 (opened + 1) w6

/-- Model of `grabBanner` (main.go, lines 53-95). -/
def grabBanner (host : List Char) (port : Int) (w : World) : Option (List Nat × World) :=
  grabLoop (host ++ ':' :: strconv.Itoa port) port retries [] 0 w

/-- Model of `scanPort` (main.go, lines 97-104). -/
def scanPort (host : List Char) (port : Int) (w : World) : Option World :=
  match sleepRandom 100 500 w with
  | none => none
  | some w1 =>
    match grabBanner host port w1 with
    | none => none
    | some (banner, w2) =>
      let w3 :=
        if banner ≠ [] then
          w2.log
            (.send (utf8.encode (host ++ ':' :: strconv.Itoa port ++ " - ".toList) ++ banner))
        else w2
      some (w3.log .wgDone)

/-! ## Task enumeration and dispatch in `main` -/

/-- The table `commonPorts` (line 26). -/
def commonPorts : List Int :=
  [1, 7, 9, 11, 13, 17, 19, 20, 21, 22, 23, 25, 26, 37, 42, 49, 53, 67, 68, 69, 70, 79, 80, 81,
   82, 83, 84, 85, 88, 96, 98, 106, 109, 110, 111, 113, 119, 123, 129, 135, 137, 138, 139, 143,
   161, 162, 179, 199, 220, 256, 389, 427, 443, 444, 445, 465, 500, 502, 512, 513, 514, 520,
   523, 554, 587, 623, 631, 636, 873, 901, 989, 990, 992, 993, 995, 1000, 1025, 1080, 1099,
   1194, 1214, 1337, 1352, 1433, 1434, 1512, 1521, 1720, 1723, 1755, 1883, 1900, 2000, 2048,
   2049, 2082, 2083, 2086, 2087, 20880, 2100, 2200, 2222, 2375, 2376, 2483, 2484, 25565, 2601,
   2604, 2947, 3050, 3128, 3260, 3306, 3388, 3389, 3456, 3632, 4000, 4045, 4444, 4500, 4786,
   4848, 5000, 5353, 5432, 5555, 5632, 5800, 5900, 5901, 5985, 6000, 6379, 6646, 6667, 7000,
   7001, 7070, 7777, 8000, 8080, 8081, 8088, 8181, 8222, 8443, 8888, 9000, 9090, 9200, 9300,
   9999, 10000, 11211, 27017, 27018, 50050, 50051, 60001, 60002, 60003, 60004, 60005, 60006,
   60007, 60008, 60009, 60010, 60011, 60012, 60013, 60014, 60015, 60016, 60017, 60018, 60019,
   60020, 60021, 60022, 60023, 60024, 60025, 60026, 60027, 60028, 60029, 60030, 60031, 60032,
   60033, 60034, 60035, 60036, 60037, 60038, 60039, 60040, 60041, 60042, 60043, 60044, 60045,
   60046, 60047, 60048, 60049, 60050, 60051, 60052, 60053, 60054, 60055, 60056, 60057, 60058,
   60059, 60060, 60061, 60062, 60063, 60064, 60065, 60066, 60067, 60068, 60069, 60070, 60071,
   60072, 60073, 60074, 60075, 60076, 60077, 60078, 60079, 60080, 60081, 60082, 60083, 60084,
   60085, 60086, 60087, 60088, 60089, 60090, 60091, 60092, 60093, 60094, 60095, 60096, 60097,
   60098, 60099, 60100, 60101, 60102, 60103, 60104, 60105, 60106, 60107, 60108, 60109, 60110,
   60111, 60112, 60113, 60114, 60115, 60116, 60117, 60118, 60119, 60120, 60121, 60122, 60123,
   60124, 60125, 60126, 60127, 60128, 60129, 60130, 60131, 60132, 60133, 60134, 60135, 60136,
   60137, 60138, 60139, 60140, 60141, 60142, 60143, 60144, 60145, 60146, 60147, 60148, 60149,
   60150, 60151, 60152, 60153, 60154, 60155, 60156, 60157, 60158, 60159, 60160, 60161, 60162,
   60163, 60164, 60165, 60166, 60167, 60168, 60169, 60170, 60171, 60172, 60173, 60174, 60175,
   60176, 60177, 60178, 60179, 60180, 60181, 60182, 60183, 60184, 60185, 60186, 60187, 60188,
   60189, 60190, 60191, 60192, 60193, 60194, 60195, 60196, 60197, 60198, 60199, 60200]
/-- Port selection, target reading and the nest of loops of `main` (lines
127-169), as the list of `(host, port)` pairs handed to `scanPort`, in order.
An error is the message printed before `main` returns without scanning. -/
def mainTasks (topPorts : Bool) (portRange : List Char) (lines : List (List Char)) :
    Except String (List (List Char × Int)) :=
  let ports? := if topPorts then .ok commonPorts else parsePortRange portRange
  match ports? with
  | .error err => .error ("Error: " ++ err)
  | .ok ports =>
    match lines.mapM sanitizeTarget with
    | none => .error "panic: index out of range"
    | some targets =>
      if targets.length = 0 then .error "No targets provided!"
      else .ok (targets.flatMap (fun host => ports.map (fun port => (host, port))))

/-- State of the dispatch loop of `main` (lines 150-169).  `cap` is the
capacity of `sem` (the flag `-r`), `pending` the iterations still to run, `sem`
the number of tokens in the channel, `spawned` the goroutines created that have
not entered `scanPort`, `scanning` those inside `scanPort`, `releasing` those
that returned from it and stand at `<-sem`, `wg` the WaitGroup counter. -/
structure Sched where
  cap : Nat
  pending : Nat
  sem : Nat
  spawned : Nat
  scanning : Nat
  releasing : Nat
  wg : Nat
deriving DecidableEq, Repr

/-- Steps of the dispatch loop.  `dispatch`: `wg.Add(1)`, the send
`sem <- struct{}{}` into a buffer with room, and the `go` statement.
`handoff`: the same with the send handed directly to a goroutine waiting at
`<-sem` on an empty channel.  `enter`: a goroutine calls `scanPort`.
`scanDone`: `scanPort` returns (its deferred `wg.Done()` has run).
`release`: the receive `<-sem` takes a token from the buffer. -/
inductive Action where
  | dispatch
  | handoff
  | enter
  | scanDone
  | release
deriving DecidableEq, Repr

/-- State before the first iteration, with `n` tasks to dispatch. -/
def Sched.init (cap n : Nat) : Sched :=
  { cap := cap, pending := n, sem := 0, spawned := 0, scanning := 0, releasing := 0, wg := 0 }

/-- One step; `none` when the action is not enabled (the goroutine is blocked). -/
def Sched.step (s : Sched) : Action → Option Sched
  | .dispatch =>
    if 0 < s.pending ∧ s.sem < s.cap then
      some { s with pending := s.pending - 1, sem := s.sem + 1, spawned := s.spawned + 1,
                    wg := s.wg + 1 }
    else none
  | .handoff =>
    if 0 < s.pending ∧ s.sem = 0 ∧ 0 < s.releasing then
      some { s with pending := s.pending - 1, releasing := s.releasing - 1,
                    spawned := s.spawned + 1, wg := s.wg + 1 }
    else none
  | .enter =>
    if 0 < s.spawned then
      some { s with spawned := s.spawned - 1, scanning := s.scanning + 1 }
    else none
  | .scanDone =>
    if 0 < s.scanning then
      some { s with scanning := s.scanning - 1, releasing := s.releasing + 1, wg := s.wg - 1 }
    else none
  | .release =>
    if 0 < s.releasing ∧ 0 < s.sem then
      some { s with releasing := s.releasing - 1, sem := s.sem - 1 }
    else none

/-- Runs a schedule, a list of actions, from a state. -/
def Sched.run : Sched → List Action → Option Sched
  | s, [] => some s
  | s, a :: rest =>
    match s.step a with
    | none => none
    | some s1 => Sched.run s1 rest

/-! ## Concrete worlds -/

/-- A world with rate factor `1.0`, exact arithmetic, a generator that always
returns `0`, and the given dial outcomes. -/
def World.start (net : Nat → Option (List ReadResult)) : World :=
  { rateFactor := 1, fl64 := id, rng := fun _ => 0, draws := 0, net := net, dials := 0,
    timeout := 5, trace := [] }

/-- Every dial fails. -/
def netRefused : Nat → Option (List ReadResult) := fun _ => none

/-- Every dial succeeds and the peer never sends anything. -/
def netSilent : Nat → Option (List ReadResult) := fun _ => some []

/-- The first dial succeeds and the peer sends `hello` and a newline at once. -/
def netHello : Nat → Option (List ReadResult) :=
  fun _ => some [⟨utf8.encode "hello\n".toList, false⟩]


/-! ## Reading traces -/

/-- A dial, failed or not. -/
def Event.isDial : Event → Bool
  | .dial _ _ _ => true
  | _ => false

/-- A dial that failed. -/
def Event.isFailedDial : Event → Bool
  | .dial _ _ ok => !ok
  | _ => false

/-- A call of `adjustRateLimit`. -/
def Event.isAdjust : Event → Bool
  | .adjust _ => true
  | _ => false

/-- A read that returned at least one byte and no error. -/
def Event.isDataRead : Event → Bool
  | .read data err => !err && !data.isEmpty
  | _ => false

/-- A send on the results channel. -/
def Event.isSend : Event → Bool
  | .send _ => true
  | _ => false

/-- A sleep. -/
def Event.isSleep : Event → Bool
  | .sleep _ => true
  | _ => false

/-- Events of the connected part of an attempt: deadline, writes, reads, sleeps. -/
def Event.inAttempt : Event → Bool
  | .setReadDeadline _ => true
  | .write _ => true
  | .read _ _ => true
  | .sleep _ => true
  | _ => false

/-- The events of an attempt that connects and reads nothing: a successful
dial, the connected part, and last a sleep of at least 1000 ms and less than
3000 ms. -/
def EmptyAttempt (B : List Event) : Prop :=
  ∃ addr t body d, B = Event.dial addr t true :: body ++ [Event.sleep d] ∧
    (∀ e ∈ body, e.inAttempt = true) ∧
    1000 * time.Millisecond ≤ d ∧ d < 3000 * time.Millisecond

/-- A run of white space: the encodings of white-space characters, one after
another. -/
def WhiteSpace (bs : List Nat) : Prop :=
  ∃ es : List (List Nat), (∀ e ∈ es, e ∈ unicode.spaceEncodings) ∧ bs = es.flatten

/-- A read that returns an error or zero bytes. -/
def ReadResult.silent (r : ReadResult) : Prop :=
  r.err = true ∨ r.data = []

/-- The world `w1` is `w` after the events `T`: same network script, `T`
appended to the trace, and one dial outcome consumed for each dial of `T`. -/
structure Frame (w w1 : World) (T : List Event) : Prop where
  net : w1.net = w.net
  dials : w1.dials = w.dials + (T.filter Event.isDial).length
  trace : w1.trace = w.trace ++ T

/-! ## Predicates of the specification -/

/-- The invalid range strings: the string does not hold exactly one dash, or
it is `x-y` where `x` or `y` is not parseable as an integer, or where the
start is below 1, the end above 65535, or the start above the end. -/
def RangeInvalid (s : List Char) : Prop :=
  s.count '-' ≠ 1 ∨
  ∃ x y, s = x ++ '-' :: y ∧
    (strconv.Atoi x = none ∨ strconv.Atoi y = none ∨
      ∃ a b, strconv.Atoi x = some a ∧ strconv.Atoi y = some b ∧
        (a < 1 ∨ b > 65535 ∨ a > b))

/-! ## Lemmas on `strings.Split` -/

theorem splitFrom_ne_nil (sep : List Char) (s : List Char) (k : Nat) :
    strings.splitFrom sep s k ≠ [] := by
  induction s generalizing k with
  | nil => simp [strings.splitFrom]
  | cons c rest ih =>
    cases k with
    | succ k => simpa [strings.splitFrom] using ih k
    | zero =>
      unfold strings.splitFrom
      split
      · simp
      · split <;> simp

theorem splitFrom_cons_of_no_match (sep : List Char) (c : Char) (rest : List Char)
    (h : sep.isPrefixOf (c :: rest) = false) :
    strings.splitFrom sep (c :: rest) 0 =
      (c :: (strings.splitFrom sep rest 0).headD []) :: (strings.splitFrom sep rest 0).tail := by
  have hne := splitFrom_ne_nil sep rest 0
  rw [strings.splitFrom]
  simp only [h, Bool.false_eq_true, if_false]
  cases hs : strings.splitFrom sep rest 0 with
  | nil => exact absurd hs hne
  | cons p ps => simp

theorem splitFrom_single_of_not_mem (c : Char) (s : List Char) (h : c ∉ s) :
    strings.splitFrom [c] s 0 = [s] := by
  induction s with
  | nil => simp [strings.splitFrom]
  | cons d rest ih =>
    have hd : c ≠ d := fun e => h (by simp [e])
    have hr : c ∉ rest := fun e => h (by simp [e])
    rw [splitFrom_cons_of_no_match _ _ _ (by simp [List.isPrefixOf, hd]), ih hr]
    simp

theorem splitFrom_single_append (c : Char) (x y : List Char) (h : c ∉ x) :
    strings.splitFrom [c] (x ++ c :: y) 0 = x :: strings.splitFrom [c] y 0 := by
  induction x with
  | nil => simp [strings.splitFrom, List.isPrefixOf]
  | cons d rest ih =>
    have hd : c ≠ d := fun e => h (by simp [e])
    have hr : c ∉ rest := fun e => h (by simp [e])
    rw [List.cons_append, splitFrom_cons_of_no_match _ _ _ (by simp [List.isPrefixOf, hd]),
      ih hr]
    simp

/-- First part of a split on `//` of `h/p`, for a host without slash: it is `h`
itself or `h` followed by a slash and more. -/
theorem splitFrom_dslash_head (h p : List Char) (hh : '/' ∉ h) :
    (strings.splitFrom ['/', '/'] (h ++ '/' :: p) 0).headD [] = h ∨
    ∃ q, (strings.splitFrom ['/', '/'] (h ++ '/' :: p) 0).headD [] = h ++ '/' :: q := by
  induction h with
  | nil =>
    cases p with
    | nil =>
      right
      exact ⟨[], by simp [strings.splitFrom, List.isPrefixOf]⟩
    | cons d p1 =>
      by_cases hd : d = '/'
      · left
        subst hd
        simp [strings.splitFrom, List.isPrefixOf]
      · right
        have hd1 : ('/' == d) = false := by simpa using fun e => hd e.symm
        rw [List.nil_append, splitFrom_cons_of_no_match _ _ _ (by simp [List.isPrefixOf, hd1])]
        exact ⟨_, rfl⟩
  | cons d rest ih =>
    have hd : ('/' == d) = false := by
      simpa using fun e : '/' = d => hh (by rw [e]; exact List.mem_cons_self _ _)
    have hr : '/' ∉ rest := fun e => hh (List.mem_cons_of_mem _ e)
    rw [List.cons_append, splitFrom_cons_of_no_match _ _ _ (by simp [List.isPrefixOf, hd])]
    rcases ih hr with h1 | ⟨q, h1⟩
    · left
      show d :: _ = d :: rest
      rw [h1]
    · right
      refine ⟨q, ?_⟩
      show d :: _ = d :: (rest ++ '/' :: q)
      rw [h1]

theorem split_slash_head (h q : List Char) (hh : '/' ∉ h) :
    (strings.Split (h ++ '/' :: q) ['/'])[0]? = some h := by
  simp [strings.Split, splitFrom_single_append _ _ _ hh]

theorem split_slash_bare (h : List Char) (hh : '/' ∉ h) :
    (strings.Split h ['/'])[0]? = some h := by
  simp [strings.Split, splitFrom_single_of_not_mem _ _ hh]

theorem getElem?_zero_eq_headD (l : List (List Char)) (hl : l ≠ []) :
    l[0]? = some (l.headD []) := by
  cases l with
  | nil => exact absurd rfl hl
  | cons a t => simp

theorem sanitize_after_scheme (h p : List Char) (hh : '/' ∉ h) :
    ∃ t, (strings.splitFrom ['/', '/'] (h ++ '/' :: p) 0)[0]? = some t ∧
      (strings.Split t ['/'])[0]? = some h := by
  refine ⟨_, getElem?_zero_eq_headD _ (splitFrom_ne_nil _ _ _), ?_⟩
  rcases splitFrom_dslash_head h p hh with h1 | ⟨q, h1⟩
  · rw [h1]
    exact split_slash_bare h hh
  · rw [h1]
    exact split_slash_head h q hh

/-- C3: `sanitizeTarget` strips an `http://` or `https://` scheme and any
trailing path.  For every host `h` without `/` and every `p`, the targets
`http://h/p` and `https://h/p` both give `h`, and the bare host `h` is
returned unchanged. -/
theorem sanitizeTarget_strips (h p : List Char) (hh : '/' ∉ h) :
    sanitizeTarget ("http://".toList ++ h ++ '/' :: p) = some h ∧
    sanitizeTarget ("https://".toList ++ h ++ '/' :: p) = some h ∧
    sanitizeTarget h = some h := by
  obtain ⟨t, ht, hs⟩ := sanitize_after_scheme h p hh
  refine ⟨?_, ?_, ?_⟩
  · have e : (strings.Split ("http://".toList ++ h ++ '/' :: p) "//".toList)[1]? = some t := by
      simpa [strings.Split, strings.splitFrom, List.isPrefixOf] using ht
    simp only [sanitizeTarget, e]
    simpa [strings.HasPrefix, List.isPrefixOf] using hs
  · have e : (strings.Split ("https://".toList ++ h ++ '/' :: p) "//".toList)[1]? = some t := by
      simpa [strings.Split, strings.splitFrom, List.isPrefixOf] using ht
    simp only [sanitizeTarget, e]
    simpa [strings.HasPrefix, List.isPrefixOf] using hs
  · have n1 : strings.HasPrefix h "http://".toList = false := by
      cases hp : strings.HasPrefix h "http://".toList with
      | false => rfl
      | true =>
        exfalso
        obtain ⟨r, hr⟩ := List.isPrefixOf_iff_prefix.mp hp
        exact hh (by rw [← hr]; simp)
    have n2 : strings.HasPrefix h "https://".toList = false := by
      cases hp : strings.HasPrefix h "https://".toList with
      | false => rfl
      | true =>
        exfalso
        obtain ⟨r, hr⟩ := List.isPrefixOf_iff_prefix.mp hp
        exact hh (by rw [← hr]; simp)
    simp only [sanitizeTarget, n1, n2]
    simpa using split_slash_bare h hh

/-- The two URLs of the specification and a bare host. -/
theorem sanitizeTarget_strips_witness :
    sanitizeTarget "https://example.com/path".toList = some "example.com".toList ∧
    sanitizeTarget "http://example.com:8080/x/y".toList = some "example.com:8080".toList ∧
    sanitizeTarget "example.com".toList = some "example.com".toList :=
  ⟨(sanitizeTarget_strips "example.com".toList "path".toList (by decide)).2.1,
   (sanitizeTarget_strips "example.com:8080".toList "x/y".toList (by decide)).1,
   (sanitizeTarget_strips "example.com".toList [] (by decide)).2.2⟩

/-! ## `strconv.Atoi` on decimal renderings, and `parsePortRange` -/

theorem digitVal_digitChar (k : Nat) (hk : k < 10) :
    strconv.digitVal (Nat.digitChar k) = some k := by
  interval_cases k <;> decide

theorem parseDigits_toDigitsCore (fuel : Nat) :
    ∀ (n : Nat) (ds : List Char), n < fuel →
      strconv.parseDigits (Nat.toDigitsCore 10 fuel n ds) 0 = strconv.parseDigits ds n := by
  induction fuel with
  | zero => intro n ds h; omega
  | succ fuel ih =>
    intro n ds h
    have hd := digitVal_digitChar (n % 10) (Nat.mod_lt _ (by decide))
    unfold Nat.toDigitsCore
    by_cases h0 : n / 10 = 0
    · have : n % 10 = n := by omega
      rw [this] at hd
      simp only [h0, if_true]
      simp [strconv.parseDigits, hd, this]
    · simp only [h0, if_false]
      rw [ih (n / 10) _ (by omega)]
      have : n / 10 * 10 + n % 10 = n := by omega
      simp [strconv.parseDigits, hd, this]

theorem parseDigits_toDigits (n : Nat) :
    strconv.parseDigits (Nat.toDigits 10 n) 0 = some n := by
  unfold Nat.toDigits
  rw [parseDigits_toDigitsCore (n + 1) n [] (by omega)]
  rfl

theorem parseDigits_all_digits (xs : List Char) :
    ∀ (acc v : Nat), strconv.parseDigits xs acc = some v →
      ∀ c ∈ xs, strconv.digitVal c ≠ none := by
  induction xs with
  | nil => intro _ _ _ c hc; cases hc
  | cons x rest ih =>
    intro acc v h c hc
    unfold strconv.parseDigits at h
    cases hx : strconv.digitVal x with
    | none => simp [hx] at h
    | some d =>
      simp only [hx] at h
      rcases List.mem_cons.mp hc with e | e
      · subst e; simp [hx]
      · exact ih _ _ h c e

theorem toDigits_no_char (n : Nat) (c : Char) (hc : strconv.digitVal c = none) :
    c ∉ Nat.toDigits 10 n :=
  fun h => parseDigits_all_digits _ _ _ (parseDigits_toDigits n) c h hc

theorem toDigits_ne_nil (n : Nat) : Nat.toDigits 10 n ≠ [] := by
  intro h
  have := parseDigits_toDigits n
  have hl := Nat.toDigits
  unfold Nat.toDigits Nat.toDigitsCore at h
  by_cases h0 : n / 10 = 0
  · simp [h0] at h
  · simp only [h0, if_false] at h
    have := Nat.toDigitsCore_lens_eq 10 n (n / 10) (Nat.digitChar (n % 10)) []
    rw [h] at this
    simp at this

theorem Atoi_toDigits (n : Nat) (hn : n < 2 ^ 63) :
    strconv.Atoi (Nat.toDigits 10 n) = some (n : Int) := by
  have hne := toDigits_ne_nil n
  have hp := parseDigits_toDigits n
  have hminus := toDigits_no_char n '-' (by decide)
  have hplus := toDigits_no_char n '+' (by decide)
  cases hs : Nat.toDigits 10 n with
  | nil => exact absurd hs hne
  | cons c cs =>
    rw [hs] at hp hminus hplus
    have h1 : c ≠ '-' := fun e => hminus (by simp [e])
    have h2 : c ≠ '+' := fun e => hplus (by simp [e])
    have hn1 : n < 9223372036854775808 := by simpa using hn
    simp [strconv.Atoi, h1, h2, hp, hn1]

theorem Atoi_Itoa (i : Int) (h0 : 0 ≤ i) (h1 : i < 2 ^ 63) :
    strconv.Atoi (strconv.Itoa i) = some i := by
  have e : strconv.Itoa i = Nat.toDigits 10 i.toNat := by
    simp [strconv.Itoa, not_lt.mpr h0]
  rw [e, Atoi_toDigits i.toNat (by omega)]
  simp [Int.toNat_of_nonneg h0]

theorem portsLoop_eq (stop : Int) (fuel : Nat) :
    ∀ (i : Int) (ports : List Int), i + fuel ≤ stop + 1 →
      portsLoop stop fuel i ports = ports ++ (List.range fuel).map (fun k : Nat => i + (k : Int)) := by
  induction fuel with
  | zero => intro i ports _; simp [portsLoop]
  | succ fuel ih =>
    intro i ports h
    have hi : i ≤ stop := by push_cast at h; omega
    rw [portsLoop, if_pos hi, ih (i + 1) _ (by push_cast at h ⊢; omega), List.range_succ_eq_map]
    simp only [List.map_cons, List.map_map, List.range_zero, List.append_assoc,
      List.singleton_append, Function.comp_def]
    have e : ∀ k : Nat, i + 1 + (k : Int) = i + ((k.succ : Nat) : Int) := by
      intro k; push_cast; omega
    simp [e]

/-- The loop of `parsePortRange` stops at its own condition: iterations beyond
`end-start+1` change nothing. -/
theorem portsLoop_extra_fuel (stop : Int) (fuel extra : Nat) :
    ∀ (i : Int) (ports : List Int), i + fuel = stop + 1 →
      portsLoop stop (fuel + extra) i ports = portsLoop stop fuel i ports := by
  induction fuel with
  | zero =>
    intro i ports h
    have hi : ¬ i ≤ stop := by push_cast at h; omega
    cases extra with
    | zero => rfl
    | succ e => simp [portsLoop, hi]
  | succ fuel ih =>
    intro i ports h
    have hi : i ≤ stop := by push_cast at h; omega
    have e : fuel + 1 + extra = (fuel + extra) + 1 := by omega
    rw [e, portsLoop, portsLoop, if_pos hi, if_pos hi]
    exact ih (i + 1) _ (by push_cast at h ⊢; omega)

/-- C1: for integers `1 ≤ a ≤ b ≤ 65535`, `parsePortRange` applied to the
decimal renderings of `a` and `b` joined by one dash succeeds; the list it
returns is `a, a+1, ..., b`: it has `b-a+1` entries, they are pairwise
distinct, and an integer is in the list exactly when it lies in `[a, b]`. -/
theorem parsePortRange_valid (a b : Int) (ha : 1 ≤ a) (hab : a ≤ b) (hb : b ≤ 65535) :
    ∃ ports, parsePortRange (strconv.Itoa a ++ '-' :: strconv.Itoa b) = .ok ports ∧
      ports = (List.range (b - a + 1).toNat).map (fun k : Nat => a + (k : Int)) ∧
      (ports.length : Int) = b - a + 1 ∧ ports.Nodup ∧
      ∀ x : Int, x ∈ ports ↔ a ≤ x ∧ x ≤ b := by
  have ea : strconv.Itoa a = Nat.toDigits 10 a.toNat := by
    simp [strconv.Itoa, not_lt.mpr (by omega : 0 ≤ a)]
  have eb : strconv.Itoa b = Nat.toDigits 10 b.toNat := by
    simp [strconv.Itoa, not_lt.mpr (by omega : 0 ≤ b)]
  have na : '-' ∉ strconv.Itoa a := ea ▸ toDigits_no_char _ '-' (by decide)
  have nb : '-' ∉ strconv.Itoa b := eb ▸ toDigits_no_char _ '-' (by decide)
  have hsplit : strings.Split (strconv.Itoa a ++ '-' :: strconv.Itoa b) ['-'] =
      [strconv.Itoa a, strconv.Itoa b] := by
    simp [strings.Split, splitFrom_single_append _ _ _ na, splitFrom_single_of_not_mem _ _ nb]
  have pa := Atoi_Itoa a (by omega) (by omega)
  have pb := Atoi_Itoa b (by omega) (by omega)
  refine ⟨_, ?_, rfl, ?_, ?_, ?_⟩
  · have hcond : ¬ (a < 1 ∨ b > 65535 ∨ a > b) := by omega
    have hloop := portsLoop_eq b (b - a + 1).toNat a []
      (by rw [Int.toNat_of_nonneg (by omega)]; omega)
    simp only [parsePortRange, hsplit, List.length_cons, List.length_nil,
      List.getD_cons_zero, List.getD_cons_succ, pa, pb, hloop]
    simp [hcond]
  · simp only [List.length_map, List.length_range]
    rw [Int.toNat_of_nonneg (by omega)]
  · refine (List.nodup_range _).map ?_
    intro k1 k2 h
    simpa using h
  · intro x
    simp only [List.mem_map, List.mem_range]
    constructor
    · rintro ⟨k, hk, rfl⟩
      omega
    · rintro ⟨h1, h2⟩
      exact ⟨(x - a).toNat, by omega, by omega⟩

/-- The range `80-83`. -/
theorem parsePortRange_valid_witness :
    ∃ ports, parsePortRange "80-83".toList = .ok ports ∧
      ports = (List.range (83 - 80 + 1 : Int).toNat).map (fun k : Nat => (80 : Int) + (k : Int)) ∧
      (ports.length : Int) = 83 - 80 + 1 ∧ ports.Nodup ∧
      ∀ x : Int, x ∈ ports ↔ 80 ≤ x ∧ x ≤ 83 :=
  parsePortRange_valid 80 83 (by decide) (by decide) (by decide)

theorem splitFrom_single_length (c : Char) (s : List Char) :
    (strings.splitFrom [c] s 0).length = s.count c + 1 := by
  induction s with
  | nil => simp [strings.splitFrom]
  | cons d rest ih =>
    by_cases hd : c = d
    · subst hd
      simp [strings.splitFrom, List.isPrefixOf, ih]
    · have hd1 : (c == d) = false := by simpa using hd
      have hd2 : (d == c) = false := by simpa using fun e : d = c => hd e.symm
      rw [splitFrom_cons_of_no_match _ _ _ (by simp [List.isPrefixOf, hd1])]
      have hne := splitFrom_ne_nil [c] rest 0
      have hl : (strings.splitFrom [c] rest 0).tail.length + 1 =
          (strings.splitFrom [c] rest 0).length := by
        cases hs : strings.splitFrom [c] rest 0 with
        | nil => exact absurd hs hne
        | cons a t => simp
      rw [List.length_cons, hl, ih, List.count_cons, hd2]
      simp

theorem parsePortRange_format_error (s : List Char) (h : s.count '-' ≠ 1) :
    parsePortRange s = .error "invalid port range format" := by
  have hl : (strings.Split s ['-']).length ≠ 2 := by
    simp only [strings.Split, List.cons_ne_nil, if_false]
    rw [splitFrom_single_length]
    omega
  simp [parsePortRange, hl]

theorem parsePortRange_of_split (x y : List Char) (hx : '-' ∉ x) (hy : '-' ∉ y) :
    parsePortRange (x ++ '-' :: y) =
      match strconv.Atoi x, strconv.Atoi y with
      | some start, some stop =>
        if start < 1 ∨ stop > 65535 ∨ start > stop then
          .error "invalid port range values"
        else .ok (portsLoop stop (stop - start + 1).toNat start [])
      | _, _ => .error "invalid port range values" := by
  have hsplit : strings.Split (x ++ '-' :: y) ['-'] = [x, y] := by
    simp [strings.Split, splitFrom_single_append _ _ _ hx, splitFrom_single_of_not_mem _ _ hy]
  simp [parsePortRange, hsplit]

theorem exists_split_of_count_one (c : Char) (s : List Char) (h : s.count c = 1) :
    ∃ x y, s = x ++ c :: y ∧ c ∉ x ∧ c ∉ y := by
  have hm : c ∈ s := List.count_pos_iff.mp (by omega)
  obtain ⟨x, y, rfl⟩ := List.append_of_mem hm
  have hc : x.count c + y.count c = 0 := by
    simp [List.count_append, List.count_cons] at h
    omega
  exact ⟨x, y, rfl, List.count_eq_zero.mp (by omega), List.count_eq_zero.mp (by omega)⟩

/-- Every string `parsePortRange` rejects is invalid in the sense of
`RangeInvalid`: the predicate leaves out no rejected string. -/
theorem rangeInvalid_of_error (s : List Char) (msg : String)
    (h : parsePortRange s = .error msg) : RangeInvalid s := by
  by_cases hc : s.count '-' = 1
  · obtain ⟨x, y, rfl, hx, hy⟩ := exists_split_of_count_one '-' s hc
    refine Or.inr ⟨x, y, rfl, ?_⟩
    rw [parsePortRange_of_split x y hx hy] at h
    cases hax : strconv.Atoi x with
    | none => exact Or.inl rfl
    | some a =>
      cases hay : strconv.Atoi y with
      | none => exact Or.inr (Or.inl rfl)
      | some b =>
        refine Or.inr (Or.inr ⟨a, b, rfl, rfl, ?_⟩)
        by_contra hcond
        simp [hax, hay, hcond] at h
  · exact Or.inl hc

/-- C2: for every invalid range string (no single dash, a part that is not an
integer, start below 1, end above 65535, or start above end)
`parsePortRange` returns an error and no port list, and `main`, which reads the
range when `-top-ports` is not set, then produces no task. -/
theorem parsePortRange_invalid (s : List Char) (h : RangeInvalid s) :
    ∃ msg, parsePortRange s = .error msg ∧
      ∀ lines, mainTasks false s lines = .error ("Error: " ++ msg) := by
  have key : ∃ msg, parsePortRange s = .error msg := by
    rcases h with h | ⟨x, y, rfl, h⟩
    · exact ⟨_, parsePortRange_format_error s h⟩
    · by_cases hc : (x ++ '-' :: y).count '-' = 1
      · have hx : '-' ∉ x := by
          rw [← List.count_eq_zero]
          simp [List.count_append, List.count_cons] at hc
          omega
        have hy : '-' ∉ y := by
          rw [← List.count_eq_zero]
          simp [List.count_append, List.count_cons] at hc
          omega
        rw [parsePortRange_of_split x y hx hy]
        rcases h with h | h | ⟨a, b, h1, h2, h3⟩
        · exact ⟨"invalid port range values", by simp [h]⟩
        · refine ⟨"invalid port range values", ?_⟩
          cases strconv.Atoi x <;> simp [h]
        · exact ⟨"invalid port range values", by simp [h1, h2, h3]⟩
      · exact ⟨_, parsePortRange_format_error _ hc⟩
  obtain ⟨msg, hm⟩ := key
  exact ⟨msg, hm, fun lines => by simp [mainTasks, hm]⟩

/-- The reversed range `10-5` is rejected. -/
theorem parsePortRange_invalid_witness :
    ∃ msg, parsePortRange "10-5".toList = .error msg ∧
      ∀ lines, mainTasks false "10-5".toList lines = .error ("Error: " ++ msg) :=
  parsePortRange_invalid "10-5".toList
    (Or.inr ⟨"10".toList, "5".toList, by decide,
      Or.inr (Or.inr ⟨10, 5, by decide, by decide, by decide⟩)⟩)

/-! ## The rate factor -/

theorem adjustRateLimit_bounds (success : Bool) (w : World) :
    1 / 2 ≤ (adjustRateLimit success w).rateFactor ∧
      (adjustRateLimit success w).rateFactor ≤ 2 := by
  simp only [adjustRateLimit]
  generalize (if success = true then w.fl64 (w.rateFactor * w.fl64 (9 / 10))
    else w.fl64 (w.rateFactor * w.fl64 (11 / 10))) = x
  split_ifs with h1 h2
  · norm_num
  · norm_num
  · exact ⟨not_lt.mp h1, not_lt.mp h2⟩

theorem foldl_adjust_bounds (outcomes : List Bool) :
    ∀ w : World, 1 / 2 ≤ w.rateFactor ∧ w.rateFactor ≤ 2 →
      1 / 2 ≤ (outcomes.foldl (fun w s => adjustRateLimit s w) w).rateFactor ∧
        (outcomes.foldl (fun w s => adjustRateLimit s w) w).rateFactor ≤ 2 := by
  induction outcomes with
  | nil => intro w h; exact h
  | cons s rest ih => intro w _; exact ih _ (adjustRateLimit_bounds s w)

/-- C4: starting from the rate factor 1.0, after every finite sequence of
`adjustRateLimit` calls, successes and failures in any order, the rate factor
is at least 0.5 and at most 2.0, whatever the rounding of the products. -/
theorem rateFactor_clamped (w : World) (outcomes : List Bool) (h : w.rateFactor = 1) :
    1 / 2 ≤ (outcomes.foldl (fun w s => adjustRateLimit s w) w).rateFactor ∧
      (outcomes.foldl (fun w s => adjustRateLimit s w) w).rateFactor ≤ 2 :=
  foldl_adjust_bounds outcomes w (by rw [h]; norm_num)

/-- Twelve failures followed by a success, from the initial world. -/
theorem rateFactor_clamped_witness :
    (World.start netRefused).rateFactor = 1 ∧
    1 / 2 ≤ ((List.replicate 12 false ++ [true]).foldl (fun w s => adjustRateLimit s w)
      (World.start netRefused)).rateFactor ∧
    ((List.replicate 12 false ++ [true]).foldl (fun w s => adjustRateLimit s w)
      (World.start netRefused)).rateFactor ≤ 2 :=
  ⟨rfl, rateFactor_clamped (World.start netRefused) _ rfl⟩

/-- The delay `randomDelay` returns does not read the rate factor: for the
same bounds and the same draw it is the same under every factor. -/
theorem randomDelay_ignores_rateFactor (min max : Int) (w : World) (f : ℚ) :
    (randomDelay min max { w with rateFactor := f }).map Prod.fst =
      (randomDelay min max w).map Prod.fst := by
  unfold randomDelay rand.Intn
  by_cases h : max - min ≤ 0 <;> simp [h]

/-- C7 on the code: at the bounds 1000 and 3000 with the draw 250 the delay
is 1250 ms under the factor 1.0 and under the factor 2.0 alike, and a whole
`grabBanner` run against a silent peer has the same events, sleeps included,
under both factors. -/
theorem randomDelay_same_under_factor_two :
    (randomDelay 1000 3000
        { World.start netRefused with rateFactor := 1, rng := (fun _ => 250) }).map Prod.fst =
      some (1250 * time.Millisecond) ∧
    (randomDelay 1000 3000
        { World.start netRefused with rateFactor := 2, rng := (fun _ => 250) }).map Prod.fst =
      some (1250 * time.Millisecond) ∧
    (grabBanner "h".toList 80 { World.start netSilent with rateFactor := 2 }).map
        (fun p => p.2.trace) =
      (grabBanner "h".toList 80 { World.start netSilent with rateFactor := 1 }).map
        (fun p => p.2.trace) := by
  refine ⟨rfl, rfl, ?_⟩
  decide

/-! ## The steps of an attempt -/

theorem Frame.same (w : World) : Frame w w [] :=
  ⟨Eq.refl _, by simp, by simp⟩

theorem Frame.trans (w w1 w2 : World) (T1 T2 : List Event)
    (h1 : Frame w w1 T1) (h2 : Frame w1 w2 T2) : Frame w w2 (T1 ++ T2) :=
  ⟨h2.net.trans h1.net, by rw [h2.dials, h1.dials, List.filter_append, List.length_append]; omega,
    by rw [h2.trace, h1.trace, List.append_assoc]⟩

theorem Frame.log (w : World) (e : Event) (he : e.isDial = false) : Frame w (w.log e) [e] :=
  ⟨Eq.refl _, by simp [World.log, he], Eq.refl _⟩

theorem sleepRandom_spec (min max : Int) (h : min < max) (w : World) :
    ∃ d w1, sleepRandom min max w = some w1 ∧ Frame w w1 [Event.sleep d] ∧
      min * time.Millisecond ≤ d ∧ d < max * time.Millisecond := by
  have hpos : 0 < max - min := by omega
  have h1 := Int.emod_nonneg (w.rng w.draws : Int) (ne_of_gt hpos)
  have h2 := Int.emod_lt_of_pos (w.rng w.draws : Int) hpos
  have e : sleepRandom min max w =
      some (time.Sleep ((min + (w.rng w.draws : Int) % (max - min)) * time.Millisecond)
        { w with draws := w.draws + 1 }) := by
    simp [sleepRandom, randomDelay, rand.Intn, not_le.mpr hpos]
  refine ⟨_, _, e, ⟨Eq.refl _, by simp [time.Sleep, World.log, Event.isDial], Eq.refl _⟩, ?_, ?_⟩
  · generalize (w.rng w.draws : Int) % (max - min) = r at h1 h2
    simp only [time.Millisecond]
    omega
  · generalize (w.rng w.draws : Int) % (max - min) = r at h1 h2
    simp only [time.Millisecond]
    omega

theorem sendProbes_spec (ps : List (List Char)) :
    ∀ w : World, ∃ w1 T, sendProbes ps w = some w1 ∧ Frame w w1 T ∧
      ∀ e ∈ T, e.inAttempt = true ∧ e.isDataRead = false := by
  induction ps with
  | nil => intro w; exact ⟨w, [], rfl, Frame.same w, by simp⟩
  | cons probe rest ih =>
    intro w
    obtain ⟨d, w1, hs, hf, -, -⟩ := sleepRandom_spec 500 1000 (by decide) (w.log (.write probe))
    obtain ⟨w2, T, hr, hf2, hT⟩ := ih w1
    refine ⟨w2, [.write probe] ++ ([.sleep d] ++ T), ?_, ?_, ?_⟩
    · simp only [sendProbes, hs, hr]
    · exact Frame.trans _ _ _ _ _ (Frame.log w _ rfl) (Frame.trans _ _ _ _ _ hf hf2)
    · intro e he
      simp only [List.mem_append, List.mem_singleton] at he
      rcases he with rfl | rfl | he
      · exact ⟨rfl, rfl⟩
      · exact ⟨rfl, rfl⟩
      · exact hT e he

theorem readLoop_spec (k : Nat) :
    ∀ (conn : List ReadResult) (banner : List Nat) (w : World),
      ∃ banner1 w1 T, readLoop k conn banner w = some (banner1, w1) ∧ Frame w w1 T ∧
        (∀ e ∈ T, e.inAttempt = true) ∧
        ((T.any Event.isDataRead = false ∧ banner1 = banner) ∨
          (T.any Event.isDataRead = true ∧ banner1 ≠ [])) := by
  induction k with
  | zero =>
    intro conn banner w
    exact ⟨banner, w, [], rfl, Frame.same w, by simp, Or.inl ⟨rfl, rfl⟩⟩
  | succ k ih =>
    intro conn banner w
    generalize hr : conn.head?.getD ⟨[], true⟩ = r
    by_cases hsil : r.err = true ∨ r.data.length = 0
    · refine ⟨banner, w.log (.read r.data r.err), [.read r.data r.err], ?_, Frame.log w _ rfl,
        ?_, Or.inl ⟨?_, rfl⟩⟩
      · simp only [readLoop, hr, hsil, if_true]
      · intro e he
        rw [List.mem_singleton.mp he]
        rfl
      · rcases hsil with h | h
        · simp [Event.isDataRead, h]
        · simp [Event.isDataRead, List.length_eq_zero.mp h]
    · obtain ⟨d, w1, hs, hf, -, -⟩ :=
        sleepRandom_spec 500 1000 (by decide) (w.log (.read r.data r.err))
      obtain ⟨banner1, w2, T, hl, hf2, hT, hd⟩ := ih conn.tail (banner ++ r.data) w1
      have herr : r.err = false := by
        cases h : r.err with
        | false => rfl
        | true => exact absurd (Or.inl h) hsil
      have hdata : r.data ≠ [] := fun h => hsil (Or.inr (by simp [h]))
      refine ⟨banner1, w2, [.read r.data r.err] ++ ([.sleep d] ++ T), ?_, ?_, ?_, Or.inr ⟨?_, ?_⟩⟩
      · simp only [readLoop, hr, hsil, if_false, hs, hl]
      · exact Frame.trans _ _ _ _ _ (Frame.log w _ rfl) (Frame.trans _ _ _ _ _ hf hf2)
      · intro e he
        simp only [List.mem_append, List.mem_singleton] at he
        rcases he with rfl | rfl | he
        · rfl
        · rfl
        · exact hT e he
      · simp [Event.isDataRead, herr, hdata]
      · rcases hd with ⟨-, h⟩ | ⟨-, h⟩
        · rw [h]
          simp [hdata]
        · exact h

theorem connected_spec (port : Int) (conn : List ReadResult) (banner : List Nat) (w : World) :
    ∃ banner1 w1 T, connected port conn banner w = some (banner1, w1) ∧ Frame w w1 T ∧
      (∀ e ∈ T, e.inAttempt = true) ∧
      ((T.any Event.isDataRead = false ∧ banner1 = banner) ∨
        (T.any Event.isDataRead = true ∧ banner1 ≠ [])) := by
  have hseed : ∃ w3 S, seed port (w.log (.setReadDeadline (5 * time.Second))) = w3 ∧
      Frame w w3 S ∧ ∀ e ∈ S, e.inAttempt = true ∧ e.isDataRead = false := by
    unfold seed
    split_ifs
    · exact ⟨_, _, rfl, Frame.trans _ _ _ _ _ (Frame.log w (.setReadDeadline _) rfl)
        (Frame.log _ (.write _) rfl), by simp [Event.inAttempt, Event.isDataRead]⟩
    · exact ⟨_, _, rfl, Frame.trans _ _ _ _ _ (Frame.log w (.setReadDeadline _) rfl)
        (Frame.log _ (.write _) rfl), by simp [Event.inAttempt, Event.isDataRead]⟩
    · exact ⟨_, _, rfl, Frame.log w (.setReadDeadline _) rfl,
        by simp [Event.inAttempt, Event.isDataRead]⟩
  obtain ⟨w3, S, h3, hf3, hS⟩ := hseed
  obtain ⟨w4, P, h4, hf4, hP⟩ := sendProbes_spec probes w3
  obtain ⟨banner1, w5, R, h5, hf5, hR, hd⟩ := readLoop_spec 5 conn banner w4
  refine ⟨banner1, w5, S ++ (P ++ R), ?_, ?_, ?_, ?_⟩
  · simp only [connected, h3, h4, h5]
  · exact Frame.trans _ _ _ _ _ hf3 (Frame.trans _ _ _ _ _ hf4 hf5)
  · intro e he
    simp only [List.mem_append] at he
    rcases he with he | he | he
    · exact (hS e he).1
    · exact (hP e he).1
    · exact hR e he
  · have hSP : (S ++ (P ++ R)).any Event.isDataRead = R.any Event.isDataRead := by
      have h1 : S.any Event.isDataRead = false := by
        rw [List.any_eq_false]
        intro e he
        simp [(hS e he).2]
      have h2 : P.any Event.isDataRead = false := by
        rw [List.any_eq_false]
        intro e he
        simp [(hP e he).2]
      simp [List.any_append, h1, h2]
    rw [hSP]
    exact hd

theorem Frame.dial (addr : List Char) (d : Int) (w : World) :
    Frame w (net.DialTimeout addr d w).2 [Event.dial addr d (w.net w.dials).isSome] :=
  ⟨Eq.refl _, by simp [net.DialTimeout, Event.isDial], Eq.refl _⟩

theorem Frame.adjust (success : Bool) (w : World) :
    Frame w (adjustRateLimit success w) [Event.adjust success] :=
  ⟨Eq.refl _, by simp [adjustRateLimit, World.log, Event.isDial], Eq.refl _⟩

theorem Frame.closeAll (n : Nat) : ∀ w : World, Frame w (closeAll n w) (List.replicate n .close) := by
  induction n with
  | zero => intro w; exact Frame.same w
  | succ n ih =>
    intro w
    have h := Frame.trans _ _ _ _ _ (Frame.log w .close (Eq.refl _)) (ih (w.log .close))
    rw [List.replicate_succ]
    exact h

theorem inAttempt_counts (T : List Event) (h : ∀ e ∈ T, e.inAttempt = true) :
    (∀ b, T.count (Event.adjust b) = 0) ∧ T.countP Event.isFailedDial = 0 ∧
      T.countP Event.isDial = 0 ∧ T.countP Event.isAdjust = 0 ∧ T.countP Event.isSend = 0 := by
  refine ⟨fun b => ?_, ?_, ?_, ?_, ?_⟩
  · rw [List.count_eq_zero]
    intro hm
    exact absurd (h _ hm) (by simp [Event.inAttempt])
  all_goals
    rw [List.countP_eq_zero]
    intro e he
    have := h e he
    cases e <;> simp_all [Event.inAttempt, Event.isFailedDial, Event.isDial, Event.isAdjust,
      Event.isSend]

theorem replicate_close_counts (n : Nat) :
    (∀ b, (List.replicate n Event.close).count (Event.adjust b) = 0) ∧
      (List.replicate n Event.close).countP Event.isFailedDial = 0 ∧
      (List.replicate n Event.close).countP Event.isDial = 0 ∧
      (List.replicate n Event.close).countP Event.isAdjust = 0 ∧
      (List.replicate n Event.close).countP Event.isSend = 0 ∧
      (List.replicate n Event.close).any Event.isDataRead = false := by
  refine ⟨fun b => ?_, ?_, ?_, ?_, ?_, ?_⟩
  · rw [List.count_eq_zero]
    intro hm
    exact absurd (List.eq_of_mem_replicate hm) (by simp)
  · rw [List.countP_eq_zero]
    intro e he
    rw [List.eq_of_mem_replicate he]
    simp [Event.isFailedDial]
  · rw [List.countP_eq_zero]
    intro e he
    rw [List.eq_of_mem_replicate he]
    simp [Event.isDial]
  · rw [List.countP_eq_zero]
    intro e he
    rw [List.eq_of_mem_replicate he]
    simp [Event.isAdjust]
  · rw [List.countP_eq_zero]
    intro e he
    rw [List.eq_of_mem_replicate he]
    simp [Event.isSend]
  · rw [List.any_eq_false]
    intro e he
    rw [List.eq_of_mem_replicate he]
    simp [Event.isDataRead]

theorem dial_split (addr : List Char) (d : Int) (w : World) :
    net.DialTimeout addr d w = (w.net w.dials, (net.DialTimeout addr d w).2) := rfl

/-- Calls of `adjustRateLimit` in a run of the attempt loop that starts with an
empty builder: one with `false` for each failed dial, and one with `true`
exactly when some read returned data. -/
theorem grabLoop_adjusts (addr : List Char) (port : Int) (n : Nat) :
    ∀ (opened : Nat) (w : World), ∃ r w1 T,
      grabLoop addr port n [] opened w = some (r, w1) ∧ Frame w w1 T ∧
      T.count (Event.adjust false) = T.countP Event.isFailedDial ∧
      T.count (Event.adjust true) = (if T.any Event.isDataRead then 1 else 0) ∧
      T.countP Event.isDial ≤ n := by
  induction n with
  | zero =>
    intro opened w
    obtain ⟨c1, c2, c3, -, -, c6⟩ := replicate_close_counts opened
    exact ⟨[], _, _, rfl, Frame.closeAll opened w, by rw [c1, c2], by rw [c1, c6]; rfl,
      by rw [c3]⟩
  | succ n ih =>
    intro opened w
    have hdial := Frame.dial addr (w.timeout * time.Second) w
    cases hnet : w.net w.dials with
    | none =>
      obtain ⟨r, w1, T, hg, hf, h1, h2, h3⟩ :=
        ih opened (adjustRateLimit false (net.DialTimeout addr (w.timeout * time.Second) w).2)
      refine ⟨r, w1, [Event.dial addr (w.timeout * time.Second) (w.net w.dials).isSome] ++
        ([Event.adjust false] ++ T), ?_,
        Frame.trans _ _ _ _ _ hdial (Frame.trans _ _ _ _ _ (Frame.adjust false _) hf), ?_, ?_, ?_⟩
      · rw [grabLoop, dial_split, hnet]
        exact hg
      · simp [hnet, List.count_cons, List.countP_cons, Event.isFailedDial, h1]
      · simp [hnet, List.count_cons, Event.isDataRead, h2]
      · simp [hnet, List.countP_cons, Event.isDial]
        omega
    | some conn =>
      obtain ⟨banner1, w5, Tc, hc, hfc, hin, hd⟩ :=
        connected_spec port conn [] (net.DialTimeout addr (w.timeout * time.Second) w).2
      obtain ⟨a1, a2, a3, -, -⟩ := inAttempt_counts Tc hin
      rcases hd with ⟨hany, hb⟩ | ⟨hany, hb⟩
      · subst hb
        obtain ⟨d, w6, hs, hfs, -, -⟩ := sleepRandom_spec 1000 3000 (by decide) w5
        obtain ⟨r, w1, T, hg, hf, h1, h2, h3⟩ := ih (opened + 1) w6
        refine ⟨r, w1, [Event.dial addr (w.timeout * time.Second) (w.net w.dials).isSome] ++
          (Tc ++ ([Event.sleep d] ++ T)), ?_,
          Frame.trans _ _ _ _ _ hdial (Frame.trans _ _ _ _ _ hfc (Frame.trans _ _ _ _ _ hfs hf)),
          ?_, ?_, ?_⟩
        · rw [grabLoop, dial_split, hnet]
          simp only [hc, List.length_nil, gt_iff_lt, lt_self_iff_false, if_false, hs]
          exact hg
        · simp [hnet, List.count_cons, List.countP_cons, List.count_append, List.countP_append,
            Event.isFailedDial, h1, a1, a2]
        · simp [hnet, List.count_cons, List.count_append, List.any_append, Event.isDataRead,
            h2, a1, hany]
        · simp [hnet, List.countP_cons, List.countP_append, Event.isDial, a3]
          omega
      · obtain ⟨c1, c2, c3, -, -, c6⟩ := replicate_close_counts (opened + 1)
        have hlen : banner1.length > 0 := List.length_pos.mpr hb
        refine ⟨strings.TrimSpace banner1, _,
          [Event.dial addr (w.timeout * time.Second) (w.net w.dials).isSome] ++
          (Tc ++ ([Event.adjust true] ++ List.replicate (opened + 1) Event.close)), ?_,
          Frame.trans _ _ _ _ _ hdial (Frame.trans _ _ _ _ _ hfc
            (Frame.trans _ _ _ _ _ (Frame.adjust true w5) (Frame.closeAll (opened + 1) _))),
          ?_, ?_, ?_⟩
        · rw [grabLoop, dial_split, hnet]
          simp only [hc, hlen, if_true]
        · simp [hnet, List.count_cons, List.countP_cons, List.count_append, List.countP_append,
            Event.isFailedDial, a1, a2, c1, c2]
        · simp [hnet, List.count_cons, List.count_append, List.any_append, Event.isDataRead,
            a1, c1, hany]
        · simp [hnet, List.countP_cons, List.countP_append, Event.isDial, a3, c3]

/-! ## `grabBanner` -/

/-- C9, as the code has it: `grabBanner` always returns, and in its events
`adjustRateLimit(false)` occurs once for each failed dial and
`adjustRateLimit(true)` occurs once if some read returned data and not at all
otherwise; the attempts, one per dial, are at most `retries`. -/
theorem grabBanner_adjust_calls (host : List Char) (port : Int) (w : World) :
    ∃ r w1 T, grabBanner host port w = some (r, w1) ∧ w1.trace = w.trace ++ T ∧
      T.count (Event.adjust false) = T.countP Event.isFailedDial ∧
      T.count (Event.adjust true) = (if T.any Event.isDataRead then 1 else 0) ∧
      T.countP Event.isDial ≤ retries := by
  obtain ⟨r, w1, T, hg, hf, h1, h2, h3⟩ :=
    grabLoop_adjusts (host ++ ':' :: strconv.Itoa port) port retries 0 w
  exact ⟨r, w1, T, hg, hf.trace, h1, h2, h3⟩

/-- Against a peer that accepts every connection and never sends, `grabBanner`
makes three attempts and calls `adjustRateLimit` not once. -/
theorem adjust_not_once_per_attempt :
    (grabBanner "h".toList 80 (World.start netSilent)).map
      (fun p => (p.2.trace.countP Event.isDial, p.2.trace.countP Event.isAdjust)) =
        some (3, 0) := by
  decide

/-- C10 on the code: when every dial is refused, `grabBanner` dials three
times with nothing but the call `adjustRateLimit(false)` between two dials; no
sleep occurs. -/
theorem refused_dials_without_wait :
    (grabBanner "h".toList 80 (World.start netRefused)).map (fun p => (p.1, p.2.trace)) =
      some ([], [.dial "h:80".toList 5000000000 false, .adjust false,
        .dial "h:80".toList 5000000000 false, .adjust false,
        .dial "h:80".toList 5000000000 false, .adjust false]) := by
  decide

theorem readLoop_silent (k : Nat) (conn : List ReadResult) (banner : List Nat) (w : World)
    (hconn : ∀ r ∈ conn, r.silent) (banner1 : List Nat) (w1 : World)
    (h : readLoop k conn banner w = some (banner1, w1)) : banner1 = banner := by
  cases k with
  | zero =>
    simp only [readLoop, Option.some.injEq, Prod.mk.injEq] at h
    exact h.1.symm
  | succ k =>
    have hs : (conn.head?.getD ⟨[], true⟩).err = true ∨
        (conn.head?.getD ⟨[], true⟩).data.length = 0 := by
      cases conn with
      | nil => exact Or.inl rfl
      | cons r rest =>
        rcases hconn r (List.mem_cons_self _ _) with h1 | h1
        · exact Or.inl h1
        · exact Or.inr (by simp [h1])
    simp only [readLoop, hs, if_true, Option.some.injEq, Prod.mk.injEq] at h
    exact h.1.symm

theorem readLoop_first (k : Nat) (b : List Nat) (rest : List ReadResult) (banner : List Nat)
    (w : World) (hb : b ≠ []) (hrest : ∀ r ∈ rest, r.silent) (banner1 : List Nat) (w1 : World)
    (h : readLoop (k + 1) (⟨b, false⟩ :: rest) banner w = some (banner1, w1)) :
    banner1 = banner ++ b := by
  have hlen : ¬ b.length = 0 := fun e => hb (List.length_eq_zero.mp e)
  simp only [readLoop, List.head?_cons, Option.getD_some, Bool.false_eq_true, hlen, or_self,
    if_false, List.tail_cons] at h
  cases hs : sleepRandom 500 1000 (w.log (.read b false)) with
  | none => simp [hs] at h
  | some w2 =>
    simp only [hs] at h
    exact readLoop_silent k rest _ w2 hrest banner1 w1 h

theorem connected_inv (port : Int) (conn : List ReadResult) (banner : List Nat) (w : World)
    (banner1 : List Nat) (w1 : World) (h : connected port conn banner w = some (banner1, w1)) :
    ∃ w4, readLoop 5 conn banner w4 = some (banner1, w1) := by
  unfold connected at h
  split at h
  · exact absurd h (by simp)
  · exact ⟨_, h⟩

/-! ## `strings.TrimSpace` -/

theorem stripFront_spec (table : List (List Nat)) (htable : ∀ e ∈ table, e ≠ []) (n : Nat) :
    ∀ bs : List Nat, bs.length ≤ n →
      ∃ es : List (List Nat), (∀ e ∈ es, e ∈ table) ∧
        bs = es.flatten ++ strings.stripFront table n bs ∧
        ∀ e ∈ table, ¬ e <+: strings.stripFront table n bs := by
  induction n with
  | zero =>
    intro bs hlen
    have hbs : bs = [] := List.length_eq_zero.mp (by omega)
    subst hbs
    refine ⟨[], by simp, by simp [strings.stripFront], ?_⟩
    intro e he hp
    exact htable e he (List.prefix_nil.mp hp)
  | succ n ih =>
    intro bs hlen
    cases hf : table.find? (fun e => e.isPrefixOf bs) with
    | none =>
      have hstep : strings.stripFront table (n + 1) bs = bs := by
        simp only [strings.stripFront, hf]
      refine ⟨[], by simp, by simp [hstep], ?_⟩
      intro e he hp
      rw [hstep] at hp
      have h1 := List.find?_eq_none.mp hf e he
      exact h1 (List.isPrefixOf_iff_prefix.mpr hp)
    | some e =>
      have hmem : e ∈ table := List.mem_of_find?_eq_some hf
      have hpre : e <+: bs :=
        List.isPrefixOf_iff_prefix.mp
          (@List.find?_some _ (fun e => e.isPrefixOf bs) e table hf)
      obtain ⟨rest, rfl⟩ := hpre
      have hne : e.length ≠ 0 := fun h0 => htable e hmem (List.length_eq_zero.mp h0)
      have hdrop : (e ++ rest).drop e.length = rest := List.drop_left e rest
      obtain ⟨es, hes, heq, hno⟩ := ih rest (by rw [List.length_append] at hlen; omega)
      have hstep : strings.stripFront table (n + 1) (e ++ rest) =
          strings.stripFront table n rest := by
        simp only [strings.stripFront, hf, hdrop]
      refine ⟨e :: es, ?_, ?_, ?_⟩
      · intro x hx
        rcases List.mem_cons.mp hx with rfl | hx
        · exact hmem
        · exact hes x hx
      · rw [hstep, List.flatten_cons, List.append_assoc, ← heq]
      · rw [hstep]
        exact hno

theorem spaceEncodings_ne_nil : ∀ e ∈ unicode.spaceEncodings, e ≠ [] := by
  decide

theorem spaceEncodings_reverse_ne_nil :
    ∀ e ∈ unicode.spaceEncodings.map List.reverse, e ≠ [] := by
  decide

/-- What `strings.TrimSpace` returns: the middle of its argument, between a
run of white space before and one after, and itself neither beginning nor
ending with a white-space character. -/
theorem TrimSpace_spec (b : List Nat) :
    (∃ pre suf, b = pre ++ strings.TrimSpace b ++ suf ∧ WhiteSpace pre ∧ WhiteSpace suf) ∧
    ∀ e ∈ unicode.spaceEncodings,
      ¬ e <+: strings.TrimSpace b ∧ ¬ e <:+ strings.TrimSpace b := by
  obtain ⟨es1, hes1, heq1, hno1⟩ :=
    stripFront_spec unicode.spaceEncodings spaceEncodings_ne_nil b.length b (le_refl _)
  obtain ⟨es2, hes2, heq2, hno2⟩ :=
    stripFront_spec (unicode.spaceEncodings.map List.reverse) spaceEncodings_reverse_ne_nil
      (strings.TrimLeftSpace b).reverse.length (strings.TrimLeftSpace b).reverse (le_refl _)
  have hlen : (strings.TrimLeftSpace b).reverse.length = (strings.TrimLeftSpace b).length :=
    List.length_reverse _
  rw [hlen] at heq2 hno2
  have hmid : strings.TrimLeftSpace b =
      strings.TrimSpace b ++ ((es2.map List.reverse).reverse).flatten := by
    have h := congrArg List.reverse heq2
    rw [List.reverse_reverse, List.reverse_append, List.reverse_flatten] at h
    exact h
  refine ⟨⟨es1.flatten, ((es2.map List.reverse).reverse).flatten, ?_, ⟨es1, hes1, rfl⟩,
    ⟨_, ?_, rfl⟩⟩, ?_⟩
  · have h : b = es1.flatten ++ strings.TrimLeftSpace b := heq1
    rw [hmid] at h
    rw [List.append_assoc]
    exact h
  · intro e he
    rw [List.mem_reverse, List.mem_map] at he
    obtain ⟨x, hx, rfl⟩ := he
    obtain ⟨t, ht, rfl⟩ := List.mem_map.mp (hes2 x hx)
    rw [List.reverse_reverse]
    exact ht
  · intro e he
    constructor
    · intro hp
      have hp1 : e <+: strings.TrimLeftSpace b := by
        rw [hmid]
        exact hp.trans (List.prefix_append _ _)
      exact hno1 e he hp1
    · intro hsuf
      have hr : e.reverse <+: (strings.TrimSpace b).reverse := List.reverse_prefix.mpr hsuf
      have hr1 : (strings.TrimSpace b).reverse =
          strings.stripFront (unicode.spaceEncodings.map List.reverse)
            (strings.TrimLeftSpace b).length (strings.TrimLeftSpace b).reverse := by
        simp [strings.TrimSpace, strings.TrimRightSpace]
      rw [hr1] at hr
      exact hno2 e.reverse (List.mem_map.mpr ⟨e, he, rfl⟩) hr

/-- The trimming on bytes: white space is removed at both ends, as text and
as encoded characters, and bytes that are no valid UTF-8 stay. -/
theorem TrimSpace_examples :
    strings.TrimSpace (utf8.encode " \t hello world\r\n".toList) =
      utf8.encode "hello world".toList ∧
    strings.TrimSpace [0xc2, 0xa0, 0x68, 0x69, 0xe2, 0x80, 0xa8, 0xc2, 0x85] = [0x68, 0x69] ∧
    strings.TrimSpace [0xa0, 0x68, 0x69, 0x85] = [0xa0, 0x68, 0x69, 0x85] ∧
    strings.TrimSpace [0x20, 0xc2, 0x20] = [0xc2] ∧
    strings.TrimSpace [0x0a, 0x20, 0x0d] = [] := by
  decide

/-- C5: if the first dial succeeds and the first read returns a non-empty
byte sequence `b`, every later read returning an error or zero bytes, then
`grabBanner` returns `b` with leading and trailing white space trimmed: the
result is `strings.TrimSpace b`, it is what stands in `b` between a run of
white space before and one after, and it neither begins nor ends with a
white-space character.  The run dials once and no more, and calls
`adjustRateLimit` once, with `true`. -/
theorem grabBanner_first_read (host : List Char) (port : Int) (w : World) (b : List Nat)
    (rest : List ReadResult) (hnet : w.net w.dials = some (⟨b, false⟩ :: rest)) (hb : b ≠ [])
    (hrest : ∀ r ∈ rest, r.silent) :
    ∃ w1 T, grabBanner host port w = some (strings.TrimSpace b, w1) ∧
      (∃ pre suf, b = pre ++ strings.TrimSpace b ++ suf ∧ WhiteSpace pre ∧ WhiteSpace suf) ∧
      (∀ e ∈ unicode.spaceEncodings,
        ¬ e <+: strings.TrimSpace b ∧ ¬ e <:+ strings.TrimSpace b) ∧
      w1.trace = w.trace ++ T ∧
      T.filter Event.isDial =
        [Event.dial (host ++ ':' :: strconv.Itoa port) (w.timeout * time.Second) true] ∧
      T.filter Event.isAdjust = [Event.adjust true] ∧
      w1.dials = w.dials + 1 := by
  have hdial := Frame.dial (host ++ ':' :: strconv.Itoa port) (w.timeout * time.Second) w
  obtain ⟨banner1, w5, Tc, hc, hfc, hin, -⟩ := connected_spec port (⟨b, false⟩ :: rest) []
    (net.DialTimeout (host ++ ':' :: strconv.Itoa port) (w.timeout * time.Second) w).2
  obtain ⟨w4, h4⟩ := connected_inv _ _ _ _ _ _ hc
  have hb1 : banner1 = b := by
    simpa using readLoop_first 4 b rest [] w4 hb hrest banner1 w5 h4
  subst hb1
  have hlen : banner1.length > 0 := List.length_pos.mpr hb
  have hdialF : Tc.filter Event.isDial = [] := by
    rw [List.filter_eq_nil_iff]
    intro e he
    have := hin e he
    cases e <;> simp_all [Event.inAttempt, Event.isDial]
  have hadjF : Tc.filter Event.isAdjust = [] := by
    rw [List.filter_eq_nil_iff]
    intro e he
    have := hin e he
    cases e <;> simp_all [Event.inAttempt, Event.isAdjust]
  have hF := Frame.trans _ _ _ _ _ hdial (Frame.trans _ _ _ _ _ hfc
    (Frame.trans _ _ _ _ _ (Frame.adjust true w5) (Frame.closeAll 1 _)))
  obtain ⟨htrim1, htrim2⟩ := TrimSpace_spec banner1
  refine ⟨_, _, ?_, htrim1, htrim2, hF.trace, ?_, ?_, ?_⟩
  · rw [grabBanner, retries, grabLoop, dial_split, hnet]
    simp only [hc, hlen, if_true]
  · simp [List.filter_append, List.filter_cons, hnet, Event.isDial, hdialF]
  · simp [List.filter_append, List.filter_cons, hnet, Event.isAdjust, hadjF]
  · rw [hF.dials]
    simp [List.filter_append, List.filter_cons, hnet, Event.isDial, hdialF]

/-- A peer that sends `hello` and a newline at once: the banner returned is
`hello`, without the newline. -/
theorem grabBanner_first_read_witness :
    ∃ w1 T, grabBanner "h".toList 80 (World.start netHello) =
        some (utf8.encode "hello".toList, w1) ∧
      utf8.encode "hello".toList = [104, 101, 108, 108, 111] ∧
      w1.trace = (World.start netHello).trace ++ T ∧
      T.filter Event.isDial =
        [Event.dial ("h".toList ++ ':' :: strconv.Itoa 80)
          ((World.start netHello).timeout * time.Second) true] ∧
      T.filter Event.isAdjust = [Event.adjust true] ∧
      w1.dials = (World.start netHello).dials + 1 := by
  obtain ⟨w1, T, h1, -, -, h2, h3, h4, h5⟩ :=
    grabBanner_first_read "h".toList 80 (World.start netHello) (utf8.encode "hello\n".toList) []
      rfl (by decide) (by simp)
  have htrim : strings.TrimSpace (utf8.encode "hello\n".toList) = utf8.encode "hello".toList := by
    decide
  rw [htrim] at h1
  exact ⟨w1, T, h1, by decide, h2, h3, h4, h5⟩

theorem connected_silent (port : Int) (conn : List ReadResult) (w : World)
    (hconn : ∀ r ∈ conn, r.silent) :
    ∃ w1 T, connected port conn [] w = some ([], w1) ∧ Frame w w1 T ∧
      ∀ e ∈ T, e.inAttempt = true := by
  obtain ⟨banner1, w1, T, hc, hf, hin, -⟩ := connected_spec port conn [] w
  obtain ⟨w4, h4⟩ := connected_inv _ _ _ _ _ _ hc
  have hb := readLoop_silent 5 conn [] w4 hconn banner1 w1 h4
  subst hb
  exact ⟨w1, T, hc, hf, hin⟩

theorem grabLoop_silent (addr : List Char) (port : Int) (n : Nat) :
    ∀ (opened : Nat) (w : World),
      (∀ k, ∃ conn, w.net k = some conn ∧ ∀ r ∈ conn, r.silent) →
      ∃ (w1 : World) (Bs : List (List Event)), grabLoop addr port n [] opened w = some ([], w1) ∧
        Frame w w1 (Bs.flatten ++ List.replicate (opened + n) Event.close) ∧
        Bs.length = n ∧ ∀ B ∈ Bs, EmptyAttempt B := by
  induction n with
  | zero =>
    intro opened w _
    exact ⟨_, [], rfl, by simpa using Frame.closeAll opened w, rfl, by simp⟩
  | succ n ih =>
    intro opened w hnet
    have hdial := Frame.dial addr (w.timeout * time.Second) w
    obtain ⟨conn, hconn, hsil⟩ := hnet w.dials
    obtain ⟨w5, Tc, hc, hfc, hin⟩ :=
      connected_silent port conn (net.DialTimeout addr (w.timeout * time.Second) w).2 hsil
    obtain ⟨d, w6, hs, hfs, hd1, hd2⟩ := sleepRandom_spec 1000 3000 (by decide) w5
    have hnet6 : ∀ k, ∃ conn, w6.net k = some conn ∧ ∀ r ∈ conn, r.silent := by
      rw [hfs.net, hfc.net, hdial.net]
      exact hnet
    obtain ⟨w1, Bs, hg, hf, hlen, hBs⟩ := ih (opened + 1) w6 hnet6
    have hF := Frame.trans _ _ _ _ _ hdial
      (Frame.trans _ _ _ _ _ hfc (Frame.trans _ _ _ _ _ hfs hf))
    refine ⟨w1, (Event.dial addr (w.timeout * time.Second) true :: Tc ++ [Event.sleep d]) :: Bs,
      ?_, ?_, by simp [hlen], ?_⟩
    · rw [grabLoop, dial_split, hconn]
      simp only [hc, List.length_nil, gt_iff_lt, lt_self_iff_false, if_false, hs]
      exact hg
    · have e : opened + 1 + n = opened + (n + 1) := by omega
      rw [hconn, e] at hF
      simpa [List.append_assoc] using hF
    · intro B hB
      rcases List.mem_cons.mp hB with rfl | hB
      · exact ⟨addr, _, Tc, d, rfl, hin, hd1, hd2⟩
      · exact hBs B hB

theorem EmptyAttempt.counts (B : List Event) (h : EmptyAttempt B) :
    B.countP Event.isDial = 1 ∧ B.countP Event.isSend = 0 := by
  obtain ⟨addr, t, body, d, rfl, hin, -, -⟩ := h
  obtain ⟨-, -, a3, -, a5⟩ := inAttempt_counts body hin
  simp [List.countP_cons, List.countP_append, Event.isDial, Event.isSend, a3, a5]

theorem flatten_counts (Bs : List (List Event)) (h : ∀ B ∈ Bs, EmptyAttempt B) :
    Bs.flatten.countP Event.isDial = Bs.length ∧ Bs.flatten.countP Event.isSend = 0 := by
  induction Bs with
  | nil => simp
  | cons B rest ih =>
    obtain ⟨h1, h2⟩ := EmptyAttempt.counts B (h B (List.mem_cons_self _ _))
    obtain ⟨h3, h4⟩ := ih (fun B hB => h B (List.mem_cons_of_mem _ hB))
    simp [List.countP_append, h1, h2, h3, h4]
    omega

/-- C6: if every dial succeeds and every read returns an error or zero
bytes, `grabBanner` returns the empty string after exactly `retries` = 3
attempts, each one a successful dial, the connected part, and last a sleep of
at least 1000 ms and less than 3000 ms; and `scanPort` returns having dialled
three times and sent nothing on the results channel. -/
theorem grabBanner_silent (host : List Char) (port : Int) (w : World)
    (hnet : ∀ k, ∃ conn, w.net k = some conn ∧ ∀ r ∈ conn, r.silent) :
    (∃ (w1 : World) (Bs : List (List Event)), grabBanner host port w = some ([], w1) ∧
      w1.trace = w.trace ++ (Bs.flatten ++ List.replicate retries Event.close) ∧
      Bs.length = retries ∧ retries = 3 ∧ ∀ B ∈ Bs, EmptyAttempt B) ∧
    (∃ w2 T, scanPort host port w = some w2 ∧ w2.trace = w.trace ++ T ∧
      T.countP Event.isDial = 3 ∧ T.countP Event.isSend = 0) := by
  constructor
  · obtain ⟨w1, Bs, hg, hf, hlen, hBs⟩ :=
      grabLoop_silent (host ++ ':' :: strconv.Itoa port) port retries 0 w hnet
    refine ⟨w1, Bs, hg, ?_, hlen, rfl, hBs⟩
    simpa using hf.trace
  · obtain ⟨d, w0, hs, hfs, -, -⟩ := sleepRandom_spec 100 500 (by decide) w
    have hnet0 : ∀ k, ∃ conn, w0.net k = some conn ∧ ∀ r ∈ conn, r.silent := by
      rw [hfs.net]
      exact hnet
    obtain ⟨w1, Bs, hg, hf, hlen, hBs⟩ :=
      grabLoop_silent (host ++ ':' :: strconv.Itoa port) port retries 0 w0 hnet0
    obtain ⟨h1, h2⟩ := flatten_counts Bs hBs
    obtain ⟨-, -, c3, -, c5, -⟩ := replicate_close_counts (0 + retries)
    have hF := Frame.trans _ _ _ _ _ hfs hf
    refine ⟨w1.log .wgDone, [Event.sleep d] ++
      (Bs.flatten ++ List.replicate (0 + retries) Event.close) ++ [Event.wgDone], ?_, ?_, ?_, ?_⟩
    · have hg1 : grabBanner host port w0 = some ([], w1) := hg
      simp [scanPort, hs, hg1]
    · simp only [World.log, hF.trace, List.append_assoc]
    · simp only [List.countP_append, List.countP_cons, List.countP_nil, h1, c3, hlen,
        Event.isDial]
      rfl
    · simp only [List.countP_append, List.countP_cons, List.countP_nil, h2, c5, Event.isSend]
      rfl

/-- A peer that accepts every connection and never sends. -/
theorem grabBanner_silent_witness :
    (∃ (w1 : World) (Bs : List (List Event)), grabBanner "h".toList 80 (World.start netSilent) = some ([], w1) ∧
      w1.trace = (World.start netSilent).trace ++
        (Bs.flatten ++ List.replicate retries Event.close) ∧
      Bs.length = retries ∧ retries = 3 ∧ ∀ B ∈ Bs, EmptyAttempt B) ∧
    (∃ w2 T, scanPort "h".toList 80 (World.start netSilent) = some w2 ∧
      w2.trace = (World.start netSilent).trace ++ T ∧
      T.countP Event.isDial = 3 ∧ T.countP Event.isSend = 0) :=
  grabBanner_silent "h".toList 80 (World.start netSilent)
    (fun _ => ⟨[], rfl, fun _ hr => absurd hr (List.not_mem_nil _)⟩)

/-! ## The dispatch loop -/

theorem Sched.step_inv (s s1 : Sched) (a : Action) (h : s.step a = some s1)
    (hinv : s.spawned + s.scanning + s.releasing = s.sem ∧ s.sem ≤ s.cap) :
    (s1.spawned + s1.scanning + s1.releasing = s1.sem ∧ s1.sem ≤ s1.cap) ∧ s1.cap = s.cap := by
  obtain ⟨h1, h2⟩ := hinv
  cases a <;> simp only [Sched.step] at h <;> split at h <;> cases h <;>
    (dsimp only; omega)

theorem Sched.run_inv (acts : List Action) :
    ∀ s s1 : Sched, Sched.run s acts = some s1 →
      (s.spawned + s.scanning + s.releasing = s.sem ∧ s.sem ≤ s.cap) →
      (s1.spawned + s1.scanning + s1.releasing = s1.sem ∧ s1.sem ≤ s1.cap) ∧
        s1.cap = s.cap := by
  induction acts with
  | nil =>
    intro s s1 h hinv
    simp only [Sched.run, Option.some.injEq] at h
    subst h
    exact ⟨hinv, rfl⟩
  | cons a rest ih =>
    intro s s1 h hinv
    simp only [Sched.run] at h
    cases hs : s.step a with
    | none => simp [hs] at h
    | some s2 =>
      simp only [hs] at h
      obtain ⟨i2, c2⟩ := Sched.step_inv s s2 a hs hinv
      obtain ⟨i1, c1⟩ := ih s2 s1 h i2
      exact ⟨i1, c1.trans c2⟩

/-- C8: in every state the dispatch loop reaches, for every capacity
`rateLimit` of the token pool and every number of tasks, the goroutines inside
`scanPort` (and so inside `grabBanner`) are at most `rateLimit`. -/
theorem dispatch_bounded (rateLimit n : Nat) (acts : List Action) (s : Sched)
    (h : Sched.run (Sched.init rateLimit n) acts = some s) : s.scanning ≤ rateLimit := by
  obtain ⟨⟨h1, h2⟩, h3⟩ := Sched.run_inv acts (Sched.init rateLimit n) s h
    ⟨rfl, Nat.zero_le _⟩
  have h4 : s.cap = rateLimit := h3
  omega

/-- Two tokens and five tasks, after two scans finished and two more were
started. -/
theorem dispatch_bounded_witness :
    Sched.run (Sched.init 2 5)
        [.dispatch, .dispatch, .enter, .enter, .scanDone, .release, .dispatch, .scanDone,
          .enter, .release, .dispatch, .enter] =
      some { cap := 2, pending := 1, sem := 2, spawned := 0, scanning := 2, releasing := 0,
             wg := 2 } ∧
    ({ cap := 2, pending := 1, sem := 2, spawned := 0, scanning := 2, releasing := 0,
       wg := 2 } : Sched).scanning ≤ 2 :=
  ⟨by decide, dispatch_bounded 2 5
    [.dispatch, .dispatch, .enter, .enter, .scanDone, .release, .dispatch, .scanDone,
      .enter, .release, .dispatch, .enter] _ (by decide)⟩

end BannerScanner
